import Mathlib

/-!
Shallow embedding of the core of `2c-fast-bc`:

* `fastbc::brandes::VertexInfo<V,W>` (src/libfastbc/include/brandes/VertexInfo.h):
  a fixed-width border-distance profile with bounds-guarded accessors,
  normalization, lexicographic `compare`, `squaredDistance` and elementwise
  arithmetic.
* `fastbc::louvain::LouvainEvaluator<V,W>` (src/libfastbc/include/louvain/LouvainEvaluator.h):
  the multilevel clustering loop (`evaluateGraph`), its per-level selection of
  the best parallel attempt, `renumber_communities` and `build_result`.

C++ machine-numeric template parameters are embedded at idealized carriers:
counts `V` at `ℤ`, distances `W` at `ℚ` (the idealization of `double`), except
where a claim is specifically about a conversion between the two numeric
representations, where an unsigned count carrier `ZMod (2^32)` (C++
`unsigned int` arithmetic) is used as well.  Indices are `Int` (C++ `int`).
A C++ `std::vector` access outside `[0, size)` is undefined behavior; the
embedding makes that outcome explicit through `CppResult.undefinedBehavior`,
and a thrown `std::out_of_range` becomes `CppResult.outOfRange`.
-/

/-- Outcome of a C++ member-function call in the embedding: a normal return,
a thrown `std::out_of_range`, or undefined behavior (an out-of-bounds
`std::vector::operator[]` access). -/
inductive CppResult (α : Type) where
  | ok : α → CppResult α
  | outOfRange : CppResult α
  | undefinedBehavior : CppResult α
  deriving DecidableEq, Repr

namespace CppResult

def map {α β : Type} (f : α → β) : CppResult α → CppResult β
  | ok a => ok (f a)
  | outOfRange => outOfRange
  | undefinedBehavior => undefinedBehavior

def isOk {α : Type} : CppResult α → Bool
  | ok _ => true
  | _ => false

end CppResult

/-- `fastbc::brandes::VertexInfo<V,W>`: `_borderCount`, `_borderSPLength`
(`std::vector<W>`) and `_borderSPCount` (`std::vector<V>`). -/
structure VertexInfo (V W : Type) where
  borderCount : Nat
  borderSPLength : List W
  borderSPCount : List V
  deriving DecidableEq, Repr

namespace VertexInfo

variable {V W : Type}

/-- The class invariant maintained by every C++ constructor and mutator:
both vectors have exactly `_borderCount` elements. -/
def wellFormed (p : VertexInfo V W) : Prop :=
  p.borderSPLength.length = p.borderCount ∧ p.borderSPCount.length = p.borderCount

instance (p : VertexInfo V W) : Decidable p.wellFormed := by
  unfold wellFormed; infer_instance

/-- `VertexInfo(int borderCount)`: zero-filled vectors of the given width. -/
def construct [Zero V] [Zero W] (n : Nat) : VertexInfo V W :=
  ⟨n, List.replicate n 0, List.replicate n 0⟩

/-- `setBorderSPLength(int storeIndex, W length)`: guarded by
`storeIndex < _borderCount` only; an index passing the guard but negative is an
out-of-bounds vector write (undefined behavior). -/
def setBorderSPLength (p : VertexInfo V W) (i : Int) (x : W) :
    CppResult (VertexInfo V W) :=
  if i < (p.borderCount : Int) then
    if 0 ≤ i then
      .ok { p with borderSPLength := p.borderSPLength.set i.toNat x }
    else
      .undefinedBehavior
  else
    .outOfRange

/-- `getBorderSPLength(int storeIndex)`. -/
def getBorderSPLength [Zero W] (p : VertexInfo V W) (i : Int) : CppResult W :=
  if i < (p.borderCount : Int) then
    if 0 ≤ i then
      .ok (p.borderSPLength.getD i.toNat 0)
    else
      .undefinedBehavior
  else
    .outOfRange

/-- `setBorderSPCount(int storeIndex, V count)`. -/
def setBorderSPCount (p : VertexInfo V W) (i : Int) (x : V) :
    CppResult (VertexInfo V W) :=
  if i < (p.borderCount : Int) then
    if 0 ≤ i then
      .ok { p with borderSPCount := p.borderSPCount.set i.toNat x }
    else
      .undefinedBehavior
  else
    .outOfRange

/-- `getBorderSPCount(int storeIndex)`. -/
def getBorderSPCount [Zero V] (p : VertexInfo V W) (i : Int) : CppResult V :=
  if i < (p.borderCount : Int) then
    if 0 ≤ i then
      .ok (p.borderSPCount.getD i.toNat 0)
    else
      .undefinedBehavior
  else
    .outOfRange

/-- `getMinBorderSPLength()`: `0` for a zero-width profile, otherwise
`*std::min_element(_borderSPLength.begin(), _borderSPLength.end())`. -/
def getMinBorderSPLength [Zero W] [Min W] (p : VertexInfo V W) : W :=
  if p.borderCount = 0 then 0
  else
    match p.borderSPLength with
    | [] => 0
    | x :: xs => xs.foldl min x

/-- `normalize()`: subtract `getMinBorderSPLength()` from every length. -/
def normalize [Zero W] [Min W] [Sub W] (p : VertexInfo V W) : VertexInfo V W :=
  { p with
    borderSPLength := p.borderSPLength.map (fun l => l - p.getMinBorderSPLength) }

/-- `reset()`: zero both vectors, keeping the width. -/
def reset [Zero V] [Zero W] (p : VertexInfo V W) : VertexInfo V W :=
  { p with
    borderSPLength := List.replicate p.borderCount 0
    borderSPCount := List.replicate p.borderCount 0 }

/-- `borders()`. -/
def borders (p : VertexInfo V W) : Nat := p.borderCount

/-- The `(count, length)` pairs of a profile in index order; the loops of
`compare`, `squaredDistance` and the elementwise operators walk both vectors
at the same index. -/
def pairs (p : VertexInfo V W) : List (V × W) :=
  p.borderSPCount.zip p.borderSPLength

/-- Loop body chain of `compare`: at each index, first the count difference
(computed in `V`, then converted to `W` by `castVW`, as in
`W cmp = _borderSPCount[i] - other._borderSPCount[i]`), then the length
difference; the first nonzero is returned. -/
def compareAux [Sub V] [Sub W] [Zero W] [DecidableEq W] (castVW : V → W) :
    List ((V × W) × (V × W)) → W
  | [] => 0
  | ((c1, l1), (c2, l2)) :: rest =>
    let cmpC := castVW (c1 - c2)
    if cmpC ≠ 0 then cmpC
    else
      let cmpL := l1 - l2
      if cmpL ≠ 0 then cmpL
      else compareAux castVW rest

/-- `compare(other)`: the loop runs over `this`'s `_borderCount` indices and
reads `other`'s vectors at the same indices, which is defined behavior only
when `other` is at least as wide. -/
def compareFn [Sub V] [Sub W] [Zero W] [DecidableEq W] (castVW : V → W)
    (p q : VertexInfo V W) : CppResult W :=
  if p.borderCount ≤ q.borderCount then
    .ok (compareAux castVW (p.pairs.zip q.pairs))
  else
    .undefinedBehavior

/-- `operator==`: `compare(other) == 0`. -/
def opEq [Sub V] [Sub W] [Zero W] [DecidableEq W] (castVW : V → W)
    (p q : VertexInfo V W) : CppResult Bool :=
  (compareFn castVW p q).map (fun c => c = 0)

/-- Loop body of `squaredDistance`: per index the squared length difference
(in `W`) plus the squared count difference, the latter computed in `V`
(`_borderSPCount[i] - (V)other._borderSPCount[i]`) before conversion to `W`. -/
def squaredDistanceAux [Sub V] [Sub W] [Mul W] [Add W] [Zero W]
    (castVW : V → W) : List ((V × W) × (V × W)) → W
  | [] => 0
  | ((c1, l1), (c2, l2)) :: rest =>
    (l1 - l2) * (l1 - l2) + castVW (c1 - c2) * castVW (c1 - c2)
      + squaredDistanceAux castVW rest

/-- `squaredDistance(other)`. -/
def squaredDistanceFn [Sub V] [Sub W] [Mul W] [Add W] [Zero W]
    (castVW : V → W) (p q : VertexInfo V W) : CppResult W :=
  if p.borderCount ≤ q.borderCount then
    .ok (squaredDistanceAux castVW (p.pairs.zip q.pairs))
  else
    .undefinedBehavior

/-- `squaredDistance` as the specification words it: counts are converted to
the distance type `W` before the subtraction, so the squared count term is
`(castVW count - castVW other.count)^2`. -/
def squaredDistanceSpecAux [Sub W] [Mul W] [Add W] [Zero W]
    (castVW : V → W) : List ((V × W) × (V × W)) → W
  | [] => 0
  | ((c1, l1), (c2, l2)) :: rest =>
    (l1 - l2) * (l1 - l2) + (castVW c1 - castVW c2) * (castVW c1 - castVW c2)
      + squaredDistanceSpecAux castVW rest

/-- Specification-worded `squaredDistance` (subtraction of counts in `W`). -/
def squaredDistanceSpecFn [Sub W] [Mul W] [Add W] [Zero W]
    (castVW : V → W) (p q : VertexInfo V W) : CppResult W :=
  if p.borderCount ≤ q.borderCount then
    .ok (squaredDistanceSpecAux castVW (p.pairs.zip q.pairs))
  else
    .undefinedBehavior

/-- `operator+=(other)`: elementwise sums over `this`'s indices; the width of
`this` is untouched. -/
def addAssign [Add V] [Add W] (p q : VertexInfo V W) :
    CppResult (VertexInfo V W) :=
  if p.borderCount ≤ q.borderCount then
    .ok { p with
          borderSPLength := p.borderSPLength.zipWith (fun a b => a + b) q.borderSPLength
          borderSPCount := p.borderSPCount.zipWith (fun a b => a + b) q.borderSPCount }
  else
    .undefinedBehavior

/-- `operator+(other)`: copies `this`, then `+=`. -/
def addOp [Add V] [Add W] (p q : VertexInfo V W) : CppResult (VertexInfo V W) :=
  addAssign p q

/-- `operator-=(other)`. -/
def subAssign [Sub V] [Sub W] (p q : VertexInfo V W) :
    CppResult (VertexInfo V W) :=
  if p.borderCount ≤ q.borderCount then
    .ok { p with
          borderSPLength := p.borderSPLength.zipWith (fun a b => a - b) q.borderSPLength
          borderSPCount := p.borderSPCount.zipWith (fun a b => a - b) q.borderSPCount }
  else
    .undefinedBehavior

/-- `operator*=(other)`. -/
def mulAssign [Mul V] [Mul W] (p q : VertexInfo V W) :
    CppResult (VertexInfo V W) :=
  if p.borderCount ≤ q.borderCount then
    .ok { p with
          borderSPLength := p.borderSPLength.zipWith (fun a b => a * b) q.borderSPLength
          borderSPCount := p.borderSPCount.zipWith (fun a b => a * b) q.borderSPCount }
  else
    .undefinedBehavior

end VertexInfo

/-- First nonzero entry of a list of differences (`0` when all entries are
zero): the return discipline of `compare`. -/
def firstNonzero {W : Type} [Zero W] [DecidableEq W] : List W → W
  | [] => 0
  | x :: xs => if x ≠ 0 then x else firstNonzero xs

namespace VertexInfo

variable {V W : Type}

/-- The per-index differences of two profiles in the order the `compare` loop
tests them: at each index the count difference first, then the length
difference. -/
def interleavedDiffs [Sub V] [Sub W] (castVW : V → W)
    (p q : VertexInfo V W) : List W :=
  (p.pairs.zip q.pairs).flatMap
    (fun e => [castVW (e.1.1 - e.2.1), e.1.2 - e.2.2])

/-- `compare` as the claim words it: scan the count differences over all
border indices first, and only if every count ties scan the length
differences. -/
def compareSpecFn [Sub V] [Sub W] [Zero W] [DecidableEq W] (castVW : V → W)
    (p q : VertexInfo V W) : CppResult W :=
  if p.borderCount ≤ q.borderCount then
    .ok (firstNonzero
      ((p.borderSPCount.zip q.borderSPCount).map (fun e => castVW (e.1 - e.2)) ++
       (p.borderSPLength.zip q.borderSPLength).map (fun e => e.1 - e.2)))
  else
    .undefinedBehavior

end VertexInfo

/-- The idealized instantiation used by the profile claims: integer
shortest-path counts, rational distances. -/
abbrev ProfileZQ := VertexInfo ℤ ℚ

/-- `V → W` conversion of the idealized instantiation. -/
def castZQ : ℤ → ℚ := fun z => (z : ℚ)

/-- C++ `unsigned int` count carrier: arithmetic modulo `2^32`. -/
abbrev U32 := ZMod (2 ^ 32)

/-- C++ `unsigned int → double` conversion: value-preserving. -/
def castU32Q : U32 → ℚ := fun v => (v.val : ℚ)

/-!
## Louvain clustering optimizer

`fastbc::louvain::LouvainEvaluator<V,W>::evaluateGraph` drives a multilevel
loop.  The `Partition` collaborator (`one_level`, `modularity`, `n2c`,
`partition2graph`) is not part of this repository's sources; one level's worth
of its output is modelled from the spec as a `ClusterAttempt` record, and
`evaluateGraph`'s per-level fan-out of `parallelism` attempts becomes a
function from the level number to the list of that level's attempt results.
Community and vertex ids are `Int` (C++ `int`/`V`).
-/

namespace Louvain

/-- Modelled from the spec: the observable outcome of one `Partition` attempt
at one level (the `Partition` class itself is not among the sources).  Per the
spec's ClusterPass contract it reports whether `one_level` improved at all,
the resulting `modularity`, and its node-to-community assignment `n2c` over
the current graph's nodes. -/
structure ClusterAttempt where
  improved : Bool
  modularity : ℚ
  n2c : List Int
  deriving Repr

instance : Inhabited ClusterAttempt := ⟨⟨false, 0, []⟩⟩

/-- First loop of `renumber_communities`: `renumber` starts as `n2c.size()`
copies of `-1` and gets `renumber[n2c[node]]++` for every node. -/
def markCounts (n2c : List Int) : List Int :=
  n2c.foldl (fun acc v => acc.set v.toNat (acc.getD v.toNat 0 + 1))
    (List.replicate n2c.length (-1))

/-- Second loop of `renumber_communities`: every entry other than the `-1`
sentinel is replaced by `final++`, scanning indices in ascending order. -/
def assignDense : List Int → Int → List Int
  | [], _ => []
  | m :: ms, final =>
    if m ≠ -1 then final :: assignDense ms (final + 1)
    else m :: assignDense ms final

/-- Number of non-sentinel entries of a marker array: the number of surviving
communities. -/
def countMarked (ms : List Int) : Nat :=
  (ms.filter (fun m => m ≠ -1)).length

/-- `LouvainEvaluator::renumber_communities(comms, n2c)`: composes each entry
of `comms` through `n2c` and the dense renumbering of `n2c`'s nonempty
communities. -/
def renumber_communities (comms n2c : List Int) : List Int :=
  let ren := assignDense (markCounts n2c) 0
  comms.map (fun old => ren.getD (n2c.getD old.toNat 0).toNat 0)

/-- The `max` scan of `build_result`: `int max = 0;` then
`if (n2c[i] > max) max = n2c[i];`. -/
def maxFold (n2c : List Int) : Int :=
  n2c.foldl (fun m c => if m < c then c else m) 0

/-- `LouvainEvaluator::build_result(n2c, g)`: `max + 1` community objects,
vertex `i` added to the community at index `n2c[i]`, in ascending `i`. -/
def buildResult (n2c : List Int) : List (List Nat) :=
  (List.range ((maxFold n2c).toNat + 1)).map
    (fun (c : Nat) =>
      (List.range n2c.length).filter (fun i => n2c.getD i 0 = (c : Int)))

/-- The selection loop over a level's modularities restricted to indices
`0..k`: `best_i = 0;` then for each subsequent index
`if (modularities[i] > modularities[best_i]) best_i = i;`. -/
def bestIdx (mods : List ℚ) : Nat → Nat
  | 0 => 0
  | k + 1 =>
    let b := bestIdx mods k
    if mods.getD b 0 < mods.getD (k + 1) 0 then k + 1 else b

/-- The selected index after the whole selection loop (indices
`1..parallelism-1`). -/
def selectBest (mods : List ℚ) : Nat := bestIdx mods (mods.length - 1)

/-- The attempt `evaluateGraph` selects as a level's winner:
`p[best_i]` for the recomputed `best_i` of that level. -/
def winnerAt (attempts : Nat → List ClusterAttempt) (level : Nat) :
    ClusterAttempt :=
  (attempts level).getD (selectBest ((attempts level).map (fun a => a.modularity))) default

/-- Modelled from the spec: the number of nodes of the current graph at each
level.  Level `0` holds the original graph (`n` nodes); afterwards the
aggregated graph produced by the winning attempt's `partition2graph` has one
node per surviving community of the winner's assignment. -/
def sizeAt (attempts : Nat → List ClusterAttempt) (n : Nat) : Nat → Nat
  | 0 => n
  | level + 1 => countMarked (markCounts (winnerAt attempts level).n2c)

/-- The `do { ... } while (improvement)` level loop of `evaluateGraph`,
starting from a given composed mapping `comms` at a given level: each
iteration selects the level's winner, renumbers `comms` through the winner's
assignment, and continues while the winner reported an improvement.  Returns
the final mapping and the number of executed levels; `fuel` bounds the
recursion and `none` means the loop was still running when fuel ran out. -/
def runLevels (attempts : Nat → List ClusterAttempt) :
    Nat → List Int → Nat → Option (List Int × Nat)
  | 0, _, _ => none
  | fuel + 1, comms, level =>
    let w := winnerAt attempts level
    let comms2 := renumber_communities comms w.n2c
    if w.improved then runLevels attempts fuel comms2 (level + 1)
    else some (comms2, level + 1)

/-- `std::vector<V> n2c(g.nb_nodes); for(i) n2c[i] = i;`. -/
def initN2c (n : Nat) : List Int :=
  (List.range n).map (fun (i : Nat) => (i : Int))

/-- `evaluateGraph`: run the level loop from the identity mapping and
materialize the result communities with `build_result`. -/
def evaluateGraph (attempts : Nat → List ClusterAttempt) (n fuel : Nat) :
    Option (List (List Nat) × Nat) :=
  (runLevels attempts fuel (initN2c n) 0).map (fun r => (buildResult r.1, r.2))

/-- A mapping uses exactly the dense zero-based ids `{0, ..., K-1}`. -/
def denseOnto (l : List Int) (K : Nat) : Prop :=
  (∀ v ∈ l, 0 ≤ v ∧ v < (K : Int)) ∧ (∀ k : Nat, k < K → ((k : Int) ∈ l))

/-- One-attempt level outcome used by concrete witnesses: a single attempt
that reports no improvement over a one-node graph. -/
def constAttempts : Nat → List ClusterAttempt := fun _ => [⟨false, 0, [0]⟩]

end Louvain

/-!
## Helper lemmas
-/

theorem s2p_compareAux_firstNonzero (L : List ((ℤ × ℚ) × (ℤ × ℚ))) :
    VertexInfo.compareAux castZQ L =
      firstNonzero (L.flatMap (fun e => [castZQ (e.1.1 - e.2.1), e.1.2 - e.2.2])) := by
  induction L with
  | nil => rfl
  | cons e rest ih =>
    obtain ⟨⟨c1, l1⟩, ⟨c2, l2⟩⟩ := e
    have hx : ((((c1, l1), (c2, l2))) :: rest).flatMap
          (fun e => [castZQ (e.1.1 - e.2.1), e.1.2 - e.2.2])
        = castZQ (c1 - c2) :: (l1 - l2) ::
            rest.flatMap (fun e => [castZQ (e.1.1 - e.2.1), e.1.2 - e.2.2]) := rfl
    rw [hx]
    by_cases h1 : castZQ (c1 - c2) = 0
    · by_cases h2 : l1 - l2 = 0
      · rw [show VertexInfo.compareAux castZQ ((((c1, l1), (c2, l2))) :: rest)
              = VertexInfo.compareAux castZQ rest from by
            simp [VertexInfo.compareAux, h1, h2]]
        rw [ih]
        simp [firstNonzero, h1, h2]
      · simp [VertexInfo.compareAux, firstNonzero, h1, h2]
    · simp [VertexInfo.compareAux, firstNonzero, h1]

theorem s2p_zip_self {α : Type} (l : List α) :
    l.zip l = l.map (fun a => (a, a)) := by
  induction l with
  | nil => rfl
  | cons a as ih => simp [List.zip_cons_cons, ih]

theorem s2p_compareAux_self (l : List (ℤ × ℚ)) :
    VertexInfo.compareAux castZQ (l.map (fun a => (a, a))) = 0 := by
  induction l with
  | nil => rfl
  | cons e rest ih =>
    obtain ⟨c, w⟩ := e
    simp [VertexInfo.compareAux, castZQ, ih]

theorem s2p_compareAux_swap (L : List ((ℤ × ℚ) × (ℤ × ℚ))) :
    VertexInfo.compareAux castZQ (L.map Prod.swap) =
      - VertexInfo.compareAux castZQ L := by
  induction L with
  | nil => simp [VertexInfo.compareAux]
  | cons e rest ih =>
    obtain ⟨⟨c1, l1⟩, ⟨c2, l2⟩⟩ := e
    have hc : castZQ (c2 - c1) = - castZQ (c1 - c2) := by
      simp only [castZQ]
      push_cast
      ring
    have hl : l2 - l1 = -(l1 - l2) := by ring
    have hs : Prod.swap ((((c1, l1), (c2, l2))) : (ℤ × ℚ) × (ℤ × ℚ))
        = ((c2, l2), (c1, l1)) := rfl
    rw [List.map_cons, hs]
    by_cases h1 : castZQ (c1 - c2) = 0
    · have h1s : castZQ (c2 - c1) = 0 := by rw [hc, h1, neg_zero]
      by_cases h2 : l1 - l2 = 0
      · have h2s : l2 - l1 = 0 := by rw [hl, h2, neg_zero]
        have e1 : VertexInfo.compareAux castZQ
              ((((c2, l2), (c1, l1))) :: rest.map Prod.swap)
            = VertexInfo.compareAux castZQ (rest.map Prod.swap) := by
          simp [VertexInfo.compareAux, h1s, h2s]
        have e2 : VertexInfo.compareAux castZQ ((((c1, l1), (c2, l2))) :: rest)
            = VertexInfo.compareAux castZQ rest := by
          simp [VertexInfo.compareAux, h1, h2]
        rw [e1, e2, ih]
      · have h2s : l2 - l1 ≠ 0 := by rw [hl]; exact neg_ne_zero.mpr h2
        have e1 : VertexInfo.compareAux castZQ
              ((((c2, l2), (c1, l1))) :: rest.map Prod.swap) = l2 - l1 := by
          simp [VertexInfo.compareAux, h1s, h2s]
        have e2 : VertexInfo.compareAux castZQ ((((c1, l1), (c2, l2))) :: rest)
            = l1 - l2 := by
          simp [VertexInfo.compareAux, h1, h2]
        rw [e1, e2, hl]
    · have h1s : castZQ (c2 - c1) ≠ 0 := by rw [hc]; exact neg_ne_zero.mpr h1
      have e1 : VertexInfo.compareAux castZQ
            ((((c2, l2), (c1, l1))) :: rest.map Prod.swap) = castZQ (c2 - c1) := by
        simp [VertexInfo.compareAux, h1s]
      have e2 : VertexInfo.compareAux castZQ ((((c1, l1), (c2, l2))) :: rest)
          = castZQ (c1 - c2) := by
        simp [VertexInfo.compareAux, h1]
      rw [e1, e2, hc]

theorem s2p_sqAux_cast_eq (L : List ((ℤ × ℚ) × (ℤ × ℚ))) :
    VertexInfo.squaredDistanceAux castZQ L =
      VertexInfo.squaredDistanceSpecAux castZQ L := by
  induction L with
  | nil => rfl
  | cons e rest ih =>
    obtain ⟨⟨c1, l1⟩, ⟨c2, l2⟩⟩ := e
    simp only [VertexInfo.squaredDistanceAux, VertexInfo.squaredDistanceSpecAux,
      ih, castZQ]
    push_cast
    ring

theorem s2p_foldl_min_map_sub (xs : List ℚ) (x m : ℚ) :
    (xs.map (fun l => l - m)).foldl min (x - m) = xs.foldl min x - m := by
  induction xs generalizing x with
  | nil => rfl
  | cons y ys ih =>
    simp only [List.map_cons, List.foldl_cons, min_sub_sub_right]
    exact ih (min x y)

theorem s2p_map_sub_zero (l : List ℚ) : l.map (fun x => x - 0) = l := by
  simp

theorem s2p_getD_zipWith {α : Type} (f : α → α → α) (d : α) :
    ∀ (l1 l2 : List α) (i : Nat), i < l1.length → i < l2.length →
      (List.zipWith f l1 l2).getD i d = f (l1.getD i d) (l2.getD i d) := by
  intro l1
  induction l1 with
  | nil => intro l2 i h1 _; simp at h1
  | cons a as ih =>
    intro l2 i h1 h2
    cases l2 with
    | nil => simp at h2
    | cons b bs =>
      cases i with
      | zero => rfl
      | succ j =>
        simp only [List.zipWith_cons_cons, List.getD_cons_succ]
        exact ih bs j (by simpa using h1) (by simpa using h2)

/-!
## Claims about the border-distance profile (`VertexInfo`)
-/

/-- C1, counterexample: on profiles of width 2 where the counts differ only at
index 1 and the lengths differ only at index 0, `compare` returns the length
difference `5` of index 0, while the claimed two-pass scan (all count
differences before any length difference) would return the count difference
`1` of index 1. -/
theorem compare_two_pass_counterexample :
    VertexInfo.compareFn castZQ (⟨2, [5, 0], [0, 1]⟩ : ProfileZQ) ⟨2, [0, 0], [0, 0]⟩
      = .ok 5 ∧
    VertexInfo.compareSpecFn castZQ (⟨2, [5, 0], [0, 1]⟩ : ProfileZQ) ⟨2, [0, 0], [0, 0]⟩
      = .ok 1 ∧
    (5 : ℚ) ≠ 1 := by
  refine ⟨?_, ?_, by norm_num⟩ <;>
    · simp [VertexInfo.compareFn, VertexInfo.compareSpecFn, VertexInfo.compareAux,
        VertexInfo.pairs, firstNonzero, castZQ]

/-- C1 (amended): for profiles of equal width, `compare` walks the border
indices in order and at each index tests the count difference first and the
length difference second, returning the first nonzero of this interleaved
difference sequence (`0` if all vanish); a count difference takes priority
over a length difference only at the same index, while an earlier index's
length difference wins over a later index's count difference. -/
theorem compare_first_nonzero_interleaved (p q : ProfileZQ)
    (h : p.borderCount = q.borderCount) :
    VertexInfo.compareFn castZQ p q =
      .ok (firstNonzero (VertexInfo.interleavedDiffs castZQ p q)) := by
  unfold VertexInfo.compareFn VertexInfo.interleavedDiffs
  rw [if_pos (le_of_eq h)]
  exact congrArg _ (s2p_compareAux_firstNonzero _)

/-- Witness for C1's theorem at concrete profiles of equal width 2. -/
theorem compare_first_nonzero_interleaved_witness :
    VertexInfo.compareFn castZQ (⟨2, [5, 0], [0, 1]⟩ : ProfileZQ) ⟨2, [0, 0], [0, 0]⟩ =
      .ok (firstNonzero
        (VertexInfo.interleavedDiffs castZQ (⟨2, [5, 0], [0, 1]⟩ : ProfileZQ)
          ⟨2, [0, 0], [0, 0]⟩)) :=
  compare_first_nonzero_interleaved _ _ rfl

/-- C2, counterexample: on a width-1 profile, index `-1` passes the
`storeIndex < _borderCount` guard of all four accessors, so none of them
signals an out-of-range error there (the access is an out-of-bounds vector
access, i.e. undefined behavior). -/
theorem negative_index_unchecked_counterexample :
    VertexInfo.setBorderSPLength (⟨1, [0], [0]⟩ : ProfileZQ) (-1) 3 ≠ .outOfRange ∧
    VertexInfo.getBorderSPLength (⟨1, [0], [0]⟩ : ProfileZQ) (-1) ≠ .outOfRange ∧
    VertexInfo.setBorderSPCount (⟨1, [0], [0]⟩ : ProfileZQ) (-1) 2 ≠ .outOfRange ∧
    VertexInfo.getBorderSPCount (⟨1, [0], [0]⟩ : ProfileZQ) (-1) ≠ .outOfRange := by
  refine ⟨?_, ?_, ?_, ?_⟩ <;> decide

/-- C2 (amended): every access at an index `≥ borderCount` (in particular at
`borderCount` itself) signals an out-of-range error and performs no mutation;
a negative index, however, passes the guard unchecked and is an out-of-bounds
vector access (undefined behavior), not an out-of-range signal. -/
theorem accessor_bounds_amended (p : ProfileZQ) (i : Int) (x : ℚ) (c : ℤ) :
    ((p.borderCount : Int) ≤ i →
      VertexInfo.setBorderSPLength p i x = .outOfRange ∧
      VertexInfo.getBorderSPLength p i = .outOfRange ∧
      VertexInfo.setBorderSPCount p i c = .outOfRange ∧
      VertexInfo.getBorderSPCount p i = .outOfRange) ∧
    (i < 0 → i < (p.borderCount : Int) →
      VertexInfo.setBorderSPLength p i x = .undefinedBehavior ∧
      VertexInfo.getBorderSPLength p i = .undefinedBehavior ∧
      VertexInfo.setBorderSPCount p i c = .undefinedBehavior ∧
      VertexInfo.getBorderSPCount p i = .undefinedBehavior) := by
  constructor
  · intro hge
    have hne : ¬ i < (p.borderCount : Int) := not_lt.mpr hge
    refine ⟨?_, ?_, ?_, ?_⟩ <;>
      simp [VertexInfo.setBorderSPLength, VertexInfo.getBorderSPLength,
        VertexInfo.setBorderSPCount, VertexInfo.getBorderSPCount, hne]
  · intro hneg hlt
    have hnn : ¬ (0 : Int) ≤ i := not_le.mpr hneg
    refine ⟨?_, ?_, ?_, ?_⟩ <;>
      simp [VertexInfo.setBorderSPLength, VertexInfo.getBorderSPLength,
        VertexInfo.setBorderSPCount, VertexInfo.getBorderSPCount, hlt, hnn]

/-- Witness for C2's amended theorem: on a width-1 profile, index 1 (equal to
`borderCount`) is out of range, index -1 is undefined behavior. -/
theorem accessor_bounds_amended_witness :
    VertexInfo.setBorderSPLength (⟨1, [0], [0]⟩ : ProfileZQ) 1 3 = .outOfRange ∧
    VertexInfo.setBorderSPLength (⟨1, [0], [0]⟩ : ProfileZQ) (-1) 3 = .undefinedBehavior :=
  ⟨((accessor_bounds_amended ⟨1, [0], [0]⟩ 1 3 0).1 (by decide)).1,
   ((accessor_bounds_amended ⟨1, [0], [0]⟩ (-1) 3 0).2 (by decide) (by decide)).1⟩

/-- C3, counterexample: with C++ `unsigned int` counts and idealized `double`
distances, profiles with counts `0` and `1` at the single border index give
`squaredDistance` the value `4294967295^2` (the count subtraction wraps in the
count type `V` before conversion), while the claimed all-in-`W` computation
gives `1`. -/
theorem squaredDistance_cast_counterexample :
    VertexInfo.squaredDistanceFn castU32Q (⟨1, [0], [0]⟩ : VertexInfo U32 ℚ) ⟨1, [0], [1]⟩ ≠
      VertexInfo.squaredDistanceSpecFn castU32Q (⟨1, [0], [0]⟩ : VertexInfo U32 ℚ) ⟨1, [0], [1]⟩ := by
  have h : ((0 - 1 : U32)).val = 4294967295 := by decide
  have h1 : ((1 : U32)).val = 1 := by decide
  have h0 : ((0 : U32)).val = 0 := by decide
  simp [VertexInfo.squaredDistanceFn, VertexInfo.squaredDistanceSpecFn,
    VertexInfo.squaredDistanceAux, VertexInfo.squaredDistanceSpecAux,
    VertexInfo.pairs, castU32Q, h, h1, h0]
  norm_num

/-- C3 (amended): `squaredDistance` sums, over the border indices, the squared
length difference computed in `W` and the squared count difference whose
subtraction is computed in the count type `V` (the other profile's count is
cast to `V`, not to `W`) before conversion; when the `V → W` conversion
preserves subtraction — as for integer counts widened into rational
distances — this coincides with the claimed all-in-`W` formula. -/
theorem squaredDistance_count_sub_in_count_type (p q : ProfileZQ) :
    VertexInfo.squaredDistanceFn castZQ p q =
      VertexInfo.squaredDistanceSpecFn castZQ p q := by
  unfold VertexInfo.squaredDistanceFn VertexInfo.squaredDistanceSpecFn
  by_cases h : p.borderCount ≤ q.borderCount
  · rw [if_pos h, if_pos h, s2p_sqAux_cast_eq]
  · rw [if_neg h, if_neg h]

theorem s2p_normalize_min (q : ProfileZQ) :
    (VertexInfo.normalize q).getMinBorderSPLength = 0 := by
  obtain ⟨bc, ls, cs⟩ := q
  by_cases hbc : bc = 0
  · simp [VertexInfo.normalize, VertexInfo.getMinBorderSPLength, hbc]
  · cases ls with
    | nil => simp [VertexInfo.normalize, VertexInfo.getMinBorderSPLength, hbc]
    | cons x xs =>
      have hmin : (VertexInfo.mk bc (x :: xs) cs : ProfileZQ).getMinBorderSPLength
          = xs.foldl min x := by
        simp [VertexInfo.getMinBorderSPLength, hbc]
      simp only [VertexInfo.normalize, hmin, List.map_cons]
      simp only [VertexInfo.getMinBorderSPLength, hbc, if_false]
      rw [s2p_foldl_min_map_sub]
      simp

theorem s2p_normalize_of_min_zero (q : ProfileZQ)
    (h : q.getMinBorderSPLength = 0) : VertexInfo.normalize q = q := by
  obtain ⟨bc, ls, cs⟩ := q
  simp only [VertexInfo.normalize, h, s2p_map_sub_zero]

/-- C7: after `normalize` the minimum border shortest-path length is `0`, and
`normalize` is idempotent. -/
theorem normalize_min_zero_and_idempotent (p : ProfileZQ) :
    (VertexInfo.normalize p).getMinBorderSPLength = 0 ∧
    VertexInfo.normalize (VertexInfo.normalize p) = VertexInfo.normalize p :=
  ⟨s2p_normalize_min p,
   s2p_normalize_of_min_zero (VertexInfo.normalize p) (s2p_normalize_min p)⟩

/-- C8: for profiles of equal width, `compare` is antisymmetric
(`p.compare(q) == -q.compare(p)`) and comparison with itself yields `0`,
making `operator==` reflexive. -/
theorem compare_antisymm_and_reflexive (p q : ProfileZQ)
    (h : p.borderCount = q.borderCount) :
    (∃ c : ℚ, VertexInfo.compareFn castZQ p q = .ok c ∧
      VertexInfo.compareFn castZQ q p = .ok (-c)) ∧
    VertexInfo.compareFn castZQ p p = .ok 0 ∧
    VertexInfo.opEq castZQ p p = .ok true := by
  have hzip : (VertexInfo.pairs q).zip (VertexInfo.pairs p)
      = ((VertexInfo.pairs p).zip (VertexInfo.pairs q)).map Prod.swap :=
    (List.zip_swap _ _).symm
  have hself : VertexInfo.compareFn castZQ p p = .ok 0 := by
    unfold VertexInfo.compareFn
    rw [if_pos le_rfl, s2p_zip_self, s2p_compareAux_self]
  refine ⟨⟨VertexInfo.compareAux castZQ ((VertexInfo.pairs p).zip (VertexInfo.pairs q)),
      ?_, ?_⟩, hself, ?_⟩
  · unfold VertexInfo.compareFn
    rw [if_pos (le_of_eq h)]
  · unfold VertexInfo.compareFn
    rw [if_pos (le_of_eq h.symm), hzip, s2p_compareAux_swap]
  · unfold VertexInfo.opEq
    rw [hself]
    simp [CppResult.map]

/-- Witness for C8's theorem at concrete equal-width profiles. -/
theorem compare_antisymm_and_reflexive_witness :
    (∃ c : ℚ, VertexInfo.compareFn castZQ (⟨1, [1], [2]⟩ : ProfileZQ) ⟨1, [3], [4]⟩ = .ok c ∧
      VertexInfo.compareFn castZQ (⟨1, [3], [4]⟩ : ProfileZQ) ⟨1, [1], [2]⟩ = .ok (-c)) ∧
    VertexInfo.compareFn castZQ (⟨1, [1], [2]⟩ : ProfileZQ) ⟨1, [1], [2]⟩ = .ok 0 ∧
    VertexInfo.opEq castZQ (⟨1, [1], [2]⟩ : ProfileZQ) ⟨1, [1], [2]⟩ = .ok true :=
  compare_antisymm_and_reflexive ⟨1, [1], [2]⟩ ⟨1, [3], [4]⟩ rfl

/-- C9: the elementwise binary operations perform no shape check: when
`p.borders() ≤ q.borders()` they iterate only over `p`'s indices, keep `p`'s
`borderCount`, and return normally (no shape-mismatch signal of any kind). -/
theorem elementwise_ops_no_shape_check (p q : ProfileZQ)
    (hp : p.wellFormed) (hq : q.wellFormed) (h : p.borders ≤ q.borders) :
    (∃ r, VertexInfo.addAssign p q = .ok r ∧ r.borders = p.borders ∧
      r.wellFormed ∧
      (∀ i, i < p.borders →
        r.borderSPLength.getD i 0
          = p.borderSPLength.getD i 0 + q.borderSPLength.getD i 0 ∧
        r.borderSPCount.getD i 0
          = p.borderSPCount.getD i 0 + q.borderSPCount.getD i 0)) ∧
    VertexInfo.addOp p q = VertexInfo.addAssign p q ∧
    (∃ r, VertexInfo.subAssign p q = .ok r ∧ r.borders = p.borders ∧ r.wellFormed) ∧
    (∃ r, VertexInfo.mulAssign p q = .ok r ∧ r.borders = p.borders ∧ r.wellFormed) ∧
    (∃ d, VertexInfo.squaredDistanceFn castZQ p q = .ok d) := by
  have hle : p.borderCount ≤ q.borderCount := h
  have hlen : ∀ (f : ℚ → ℚ → ℚ),
      (List.zipWith f p.borderSPLength q.borderSPLength).length = p.borderCount := by
    intro f
    rw [List.length_zipWith, hp.1, hq.1]
    exact Nat.min_eq_left hle
  have hlenC : ∀ (f : ℤ → ℤ → ℤ),
      (List.zipWith f p.borderSPCount q.borderSPCount).length = p.borderCount := by
    intro f
    rw [List.length_zipWith, hp.2, hq.2]
    exact Nat.min_eq_left hle
  have hadd : VertexInfo.addAssign p q
      = .ok { p with
              borderSPLength :=
                List.zipWith (fun a b => a + b) p.borderSPLength q.borderSPLength
              borderSPCount :=
                List.zipWith (fun a b => a + b) p.borderSPCount q.borderSPCount } := by
    unfold VertexInfo.addAssign
    rw [if_pos hle]
  have hsub : VertexInfo.subAssign p q
      = .ok { p with
              borderSPLength :=
                List.zipWith (fun a b => a - b) p.borderSPLength q.borderSPLength
              borderSPCount :=
                List.zipWith (fun a b => a - b) p.borderSPCount q.borderSPCount } := by
    unfold VertexInfo.subAssign
    rw [if_pos hle]
  have hmul : VertexInfo.mulAssign p q
      = .ok { p with
              borderSPLength :=
                List.zipWith (fun a b => a * b) p.borderSPLength q.borderSPLength
              borderSPCount :=
                List.zipWith (fun a b => a * b) p.borderSPCount q.borderSPCount } := by
    unfold VertexInfo.mulAssign
    rw [if_pos hle]
  have hsq : VertexInfo.squaredDistanceFn castZQ p q
      = .ok (VertexInfo.squaredDistanceAux castZQ
          ((VertexInfo.pairs p).zip (VertexInfo.pairs q))) := by
    unfold VertexInfo.squaredDistanceFn
    rw [if_pos hle]
  refine ⟨⟨_, hadd, rfl, ⟨hlen _, hlenC _⟩, ?_⟩, rfl,
    ⟨_, hsub, rfl, ⟨hlen _, hlenC _⟩⟩, ⟨_, hmul, rfl, ⟨hlen _, hlenC _⟩⟩, ⟨_, hsq⟩⟩
  intro i hi
  have hiL : i < p.borderSPLength.length := by rw [hp.1]; exact hi
  have hiLq : i < q.borderSPLength.length := by rw [hq.1]; exact lt_of_lt_of_le hi hle
  have hiC : i < p.borderSPCount.length := by rw [hp.2]; exact hi
  have hiCq : i < q.borderSPCount.length := by rw [hq.2]; exact lt_of_lt_of_le hi hle
  exact ⟨s2p_getD_zipWith _ _ _ _ i hiL hiLq, s2p_getD_zipWith _ _ _ _ i hiC hiCq⟩

/-- Witness for C9's theorem: a width-1 profile against a width-2 profile. -/
theorem elementwise_ops_no_shape_check_witness :
    (∃ r, VertexInfo.addAssign (⟨1, [1], [2]⟩ : ProfileZQ) ⟨2, [3, 4], [5, 6]⟩ = .ok r ∧
      r.borders = (⟨1, [1], [2]⟩ : ProfileZQ).borders ∧ r.wellFormed ∧
      (∀ i, i < (⟨1, [1], [2]⟩ : ProfileZQ).borders →
        r.borderSPLength.getD i 0
          = (⟨1, [1], [2]⟩ : ProfileZQ).borderSPLength.getD i 0
            + (⟨2, [3, 4], [5, 6]⟩ : ProfileZQ).borderSPLength.getD i 0 ∧
        r.borderSPCount.getD i 0
          = (⟨1, [1], [2]⟩ : ProfileZQ).borderSPCount.getD i 0
            + (⟨2, [3, 4], [5, 6]⟩ : ProfileZQ).borderSPCount.getD i 0)) ∧
    VertexInfo.addOp (⟨1, [1], [2]⟩ : ProfileZQ) ⟨2, [3, 4], [5, 6]⟩
      = VertexInfo.addAssign (⟨1, [1], [2]⟩ : ProfileZQ) ⟨2, [3, 4], [5, 6]⟩ ∧
    (∃ r, VertexInfo.subAssign (⟨1, [1], [2]⟩ : ProfileZQ) ⟨2, [3, 4], [5, 6]⟩ = .ok r ∧
      r.borders = (⟨1, [1], [2]⟩ : ProfileZQ).borders ∧ r.wellFormed) ∧
    (∃ r, VertexInfo.mulAssign (⟨1, [1], [2]⟩ : ProfileZQ) ⟨2, [3, 4], [5, 6]⟩ = .ok r ∧
      r.borders = (⟨1, [1], [2]⟩ : ProfileZQ).borders ∧ r.wellFormed) ∧
    (∃ d, VertexInfo.squaredDistanceFn castZQ (⟨1, [1], [2]⟩ : ProfileZQ) ⟨2, [3, 4], [5, 6]⟩
      = .ok d) :=
  elementwise_ops_no_shape_check ⟨1, [1], [2]⟩ ⟨2, [3, 4], [5, 6]⟩
    (by decide) (by decide) (by decide)

/-!
## Helper lemmas for the clustering optimizer
-/

theorem s2p_bestIdx_le (mods : List ℚ) (k : Nat) : Louvain.bestIdx mods k ≤ k := by
  induction k with
  | zero => simp [Louvain.bestIdx]
  | succ k ih =>
    simp only [Louvain.bestIdx]
    by_cases h : mods.getD (Louvain.bestIdx mods k) 0 < mods.getD (k + 1) 0
    · rw [if_pos h]
    · rw [if_neg h]
      exact le_trans ih (Nat.le_succ k)

theorem s2p_bestIdx_max (mods : List ℚ) (k : Nat) :
    ∀ j, j ≤ k → mods.getD j 0 ≤ mods.getD (Louvain.bestIdx mods k) 0 := by
  induction k with
  | zero =>
    intro j hj
    have : j = 0 := Nat.le_zero.mp hj
    subst this
    simp [Louvain.bestIdx]
  | succ k ih =>
    intro j hj
    by_cases h : mods.getD (Louvain.bestIdx mods k) 0 < mods.getD (k + 1) 0
    · simp only [Louvain.bestIdx]
      rw [if_pos h]
      by_cases hj' : j ≤ k
      · exact le_trans (ih j hj') (le_of_lt h)
      · have : j = k + 1 := by omega
        subst this
        exact le_rfl
    · simp only [Louvain.bestIdx]
      rw [if_neg h]
      by_cases hj' : j ≤ k
      · exact ih j hj'
      · have : j = k + 1 := by omega
        subst this
        exact not_lt.mp h

theorem s2p_bestIdx_first (mods : List ℚ) (k : Nat) :
    ∀ j, j < Louvain.bestIdx mods k →
      mods.getD j 0 < mods.getD (Louvain.bestIdx mods k) 0 := by
  induction k with
  | zero =>
    intro j hj
    simp [Louvain.bestIdx] at hj
  | succ k ih =>
    intro j hj
    by_cases h : mods.getD (Louvain.bestIdx mods k) 0 < mods.getD (k + 1) 0
    · simp only [Louvain.bestIdx] at hj ⊢
      rw [if_pos h] at hj ⊢
      exact lt_of_le_of_lt (s2p_bestIdx_max mods k j (Nat.lt_succ_iff.mp hj)) h
    · simp only [Louvain.bestIdx] at hj ⊢
      rw [if_neg h] at hj ⊢
      exact ih j hj

theorem s2p_getD_map_modularity (L : List Louvain.ClusterAttempt) (j : Nat)
    (hj : j < L.length) :
    (L.map (fun a => a.modularity)).getD j 0 = (L.getD j default).modularity := by
  have hj' : j < (L.map (fun a => a.modularity)).length := by
    rw [List.length_map]; exact hj
  rw [List.getD_eq_getElem _ _ hj', List.getD_eq_getElem _ _ hj, List.getElem_map]

/-!
## Claims about the clustering optimizer
-/

/-- C5: at every level `evaluateGraph` selects the attempt whose modularity is
maximal among that level's attempts, and on ties the attempt with the lowest
index: every earlier attempt has strictly smaller modularity than the selected
one. -/
theorem winner_is_first_max (attempts : Nat → List Louvain.ClusterAttempt)
    (l : Nat) (h : attempts l ≠ []) :
    ∃ b, b < (attempts l).length ∧
      b = Louvain.selectBest ((attempts l).map (fun a => a.modularity)) ∧
      Louvain.winnerAt attempts l = (attempts l).getD b default ∧
      (∀ j, j < (attempts l).length →
        ((attempts l).getD j default).modularity
          ≤ ((attempts l).getD b default).modularity) ∧
      (∀ j, j < b →
        ((attempts l).getD j default).modularity
          < ((attempts l).getD b default).modularity) := by
  set L := attempts l with hL
  set mods := L.map (fun a => a.modularity) with hmods
  have hlen : mods.length = L.length := List.length_map _ _
  have hpos : 0 < L.length := List.length_pos.mpr h
  have hble : Louvain.selectBest mods ≤ mods.length - 1 := s2p_bestIdx_le mods _
  have hblt : Louvain.selectBest mods < L.length := by
    omega
  refine ⟨Louvain.selectBest mods, hblt, rfl, rfl, ?_, ?_⟩
  · intro j hj
    have h1 : mods.getD j 0 ≤ mods.getD (Louvain.selectBest mods) 0 :=
      s2p_bestIdx_max mods (mods.length - 1) j (by omega)
    rwa [s2p_getD_map_modularity L j hj,
      s2p_getD_map_modularity L _ hblt] at h1
  · intro j hj
    have h1 : mods.getD j 0 < mods.getD (Louvain.selectBest mods) 0 :=
      s2p_bestIdx_first mods (mods.length - 1) j hj
    have hjlt : j < L.length := lt_trans hj hblt
    rwa [s2p_getD_map_modularity L j hjlt,
      s2p_getD_map_modularity L _ hblt] at h1

/-- Witness for C5's theorem at a concrete nonempty attempt list: the selected
index is 0 and carries the maximal modularity. -/
theorem winner_is_first_max_witness :
    ∃ b, b < (Louvain.constAttempts 0).length ∧
      b = Louvain.selectBest ((Louvain.constAttempts 0).map (fun a => a.modularity)) ∧
      Louvain.winnerAt Louvain.constAttempts 0 = (Louvain.constAttempts 0).getD b default ∧
      (∀ j, j < (Louvain.constAttempts 0).length →
        ((Louvain.constAttempts 0).getD j default).modularity
          ≤ ((Louvain.constAttempts 0).getD b default).modularity) ∧
      (∀ j, j < b →
        ((Louvain.constAttempts 0).getD j default).modularity
          < ((Louvain.constAttempts 0).getD b default).modularity) :=
  winner_is_first_max Louvain.constAttempts 0 (by simp [Louvain.constAttempts])

theorem s2p_foldl_max_init_le :
    ∀ (l : List Int) (a : Int),
      a ≤ l.foldl (fun m c => if m < c then c else m) a := by
  intro l
  induction l with
  | nil => intro a; exact le_rfl
  | cons v rest ih =>
    intro a
    refine le_trans ?_ (ih (if a < v then v else a))
    by_cases h : a < v
    · rw [if_pos h]; exact le_of_lt h
    · rw [if_neg h]

theorem s2p_foldl_max_ge_mem :
    ∀ (l : List Int) (a v : Int), v ∈ l →
      v ≤ l.foldl (fun m c => if m < c then c else m) a := by
  intro l
  induction l with
  | nil => intro a v hv; simp at hv
  | cons w rest ih =>
    intro a v hv
    rcases List.mem_cons.mp hv with hv | hv
    · subst hv
      refine le_trans ?_ (s2p_foldl_max_init_le rest (if a < v then v else a))
      by_cases h : a < v
      · rw [if_pos h]
      · rw [if_neg h]; exact not_lt.mp h
    · exact ih _ v hv

theorem s2p_foldl_max_mem_or :
    ∀ (l : List Int) (a : Int),
      l.foldl (fun m c => if m < c then c else m) a = a ∨
        l.foldl (fun m c => if m < c then c else m) a ∈ l := by
  intro l
  induction l with
  | nil => intro a; exact Or.inl rfl
  | cons v rest ih =>
    intro a
    rcases ih (if a < v then v else a) with h | h
    · by_cases hav : a < v
      · right
        rw [List.foldl_cons, h, if_pos hav]
        exact List.mem_cons_self _ _
      · left
        rw [List.foldl_cons, h, if_neg hav]
    · right
      rw [List.foldl_cons]
      exact List.mem_cons_of_mem _ h

theorem s2p_buildResult_length (n2c : List Int) :
    (Louvain.buildResult n2c).length = (Louvain.maxFold n2c).toNat + 1 := by
  unfold Louvain.buildResult
  rw [List.length_map, List.length_range]

theorem s2p_buildResult_getD (n2c : List Int) (c : Nat)
    (hc : c < (Louvain.maxFold n2c).toNat + 1) :
    (Louvain.buildResult n2c).getD c []
      = (List.range n2c.length).filter (fun i => n2c.getD i 0 = (c : Int)) := by
  show ((List.range ((Louvain.maxFold n2c).toNat + 1)).map
      (fun (c : Nat) =>
        (List.range n2c.length).filter (fun i => n2c.getD i 0 = (c : Int)))).getD c []
    = (List.range n2c.length).filter (fun i => n2c.getD i 0 = (c : Int))
  have hc' : c < ((List.range ((Louvain.maxFold n2c).toNat + 1)).map
      (fun (c : Nat) =>
        (List.range n2c.length).filter (fun i => n2c.getD i 0 = (c : Int)))).length := by
    rw [List.length_map, List.length_range]
    exact hc
  rw [List.getD_eq_getElem _ _ hc', List.getElem_map, List.getElem_range]

theorem s2p_buildResult_mem (n2c : List Int) (i c : Nat)
    (hi : i < n2c.length) (hc : c < (Louvain.maxFold n2c).toNat + 1) :
    (i ∈ (Louvain.buildResult n2c).getD c [] ↔ n2c.getD i 0 = (c : Int)) := by
  rw [s2p_buildResult_getD n2c c hc]
  simp [List.mem_filter, List.mem_range, hi]

/-- C10: `build_result` materializes exactly `1 + max` community objects where
`max` is the scan maximum of the final mapping (which, for a nonempty
nonnegative mapping, is the largest occurring community id), and vertex `i`
is a member of exactly the community at index `n2c[i]`. -/
theorem build_result_communities (n2c : List Int) (hv : ∀ v ∈ n2c, 0 ≤ v) :
    (Louvain.buildResult n2c).length = (Louvain.maxFold n2c).toNat + 1 ∧
    (∀ v ∈ n2c, v ≤ Louvain.maxFold n2c) ∧
    (n2c ≠ [] → Louvain.maxFold n2c ∈ n2c) ∧
    (∀ i, i < n2c.length →
      (n2c.getD i 0).toNat < (Louvain.buildResult n2c).length ∧
      (∀ c, c < (Louvain.buildResult n2c).length →
        (i ∈ (Louvain.buildResult n2c).getD c [] ↔ n2c.getD i 0 = (c : Int)))) := by
  have hlen := s2p_buildResult_length n2c
  refine ⟨hlen, ?_, ?_, ?_⟩
  · intro v hv'
    exact s2p_foldl_max_ge_mem n2c 0 v hv'
  · intro hne
    rcases s2p_foldl_max_mem_or n2c 0 with h | h
    · -- the fold stayed at 0; some element exists and all are ≤ 0 and ≥ 0
      obtain ⟨w, hw⟩ := List.exists_mem_of_ne_nil n2c hne
      have hw0 : w = 0 := le_antisymm
        (by have := s2p_foldl_max_ge_mem n2c 0 w hw; rw [h] at this; exact this)
        (hv w hw)
      rw [show Louvain.maxFold n2c = (0 : Int) from h, ← hw0]
      exact hw
    · exact h
  · intro i hi
    have hmem : n2c.getD i 0 ∈ n2c := by
      rw [List.getD_eq_getElem _ _ hi]
      exact List.getElem_mem hi
    have h0 : 0 ≤ n2c.getD i 0 := hv _ hmem
    have hle : n2c.getD i 0 ≤ Louvain.maxFold n2c := s2p_foldl_max_ge_mem n2c 0 _ hmem
    have hlt : (n2c.getD i 0).toNat < (Louvain.maxFold n2c).toNat + 1 := by omega
    refine ⟨by rw [hlen]; exact hlt, ?_⟩
    intro c hc
    exact s2p_buildResult_mem n2c i c hi (by rw [← hlen]; exact hc)

/-- Witness for C10's theorem at the mapping `[0, 1, 0]`. -/
theorem build_result_communities_witness :
    (Louvain.buildResult [0, 1, 0]).length = (Louvain.maxFold [0, 1, 0]).toNat + 1 ∧
    (∀ v ∈ ([0, 1, 0] : List Int), v ≤ Louvain.maxFold [0, 1, 0]) ∧
    (([0, 1, 0] : List Int) ≠ [] → Louvain.maxFold [0, 1, 0] ∈ ([0, 1, 0] : List Int)) ∧
    (∀ i, i < ([0, 1, 0] : List Int).length →
      (([0, 1, 0] : List Int).getD i 0).toNat < (Louvain.buildResult [0, 1, 0]).length ∧
      (∀ c, c < (Louvain.buildResult [0, 1, 0]).length →
        (i ∈ (Louvain.buildResult [0, 1, 0]).getD c [] ↔
          ([0, 1, 0] : List Int).getD i 0 = (c : Int)))) :=
  build_result_communities [0, 1, 0] (by decide)

theorem s2p_runLevels_stops (attempts : Nat → List Louvain.ClusterAttempt) :
    ∀ (k fuel level : Nat) (comms : List Int),
      (∀ j, j < k → (Louvain.winnerAt attempts (level + j)).improved = true) →
      (Louvain.winnerAt attempts (level + k)).improved = false →
      k < fuel →
      ∃ final, Louvain.runLevels attempts fuel comms level
        = some (final, level + k + 1) := by
  intro k
  induction k with
  | zero =>
    intro fuel level comms _ h2 hf
    obtain ⟨f, rfl⟩ : ∃ f, fuel = f + 1 := ⟨fuel - 1, by omega⟩
    refine ⟨Louvain.renumber_communities comms (Louvain.winnerAt attempts level).n2c, ?_⟩
    simp only [Louvain.runLevels]
    rw [Nat.add_zero] at h2
    rw [h2]
    simp
  | succ k ih =>
    intro fuel level comms h1 h2 hf
    obtain ⟨f, rfl⟩ : ∃ f, fuel = f + 1 := ⟨fuel - 1, by omega⟩
    have himp : (Louvain.winnerAt attempts level).improved = true := by
      have := h1 0 (Nat.succ_pos k)
      rwa [Nat.add_zero] at this
    have h1' : ∀ j, j < k →
        (Louvain.winnerAt attempts (level + 1 + j)).improved = true := by
      intro j hj
      have := h1 (j + 1) (by omega)
      have e : level + (j + 1) = level + 1 + j := by omega
      rwa [e] at this
    have h2' : (Louvain.winnerAt attempts (level + 1 + k)).improved = false := by
      have e : level + (k + 1) = level + 1 + k := by omega
      rwa [e] at h2
    obtain ⟨final, hfin⟩ := ih f (level + 1)
      (Louvain.renumber_communities comms (Louvain.winnerAt attempts level).n2c)
      h1' h2' (by omega)
    refine ⟨final, ?_⟩
    simp only [Louvain.runLevels]
    rw [himp]
    simp only [if_true]
    rw [hfin]
    congr 2
    omega

/-- C6: the level loop runs exactly while the selected winner reported an
improvement: if the winners of levels `0..k-1` improved and the winner of
level `k` did not, the loop executes exactly `k + 1` levels; in particular
(the spec's zero-edge contract: `one_level` reports no improvement on a graph
with no edges, so level 0's winner does not improve) the loop terminates after
exactly one level. -/
theorem level_loop_stops_at_first_no_improvement
    (attempts : Nat → List Louvain.ClusterAttempt) (n fuel k : Nat)
    (h1 : ∀ j, j < k → (Louvain.winnerAt attempts j).improved = true)
    (h2 : (Louvain.winnerAt attempts k).improved = false)
    (hf : k < fuel) :
    ∃ final, Louvain.runLevels attempts fuel (Louvain.initN2c n) 0
        = some (final, k + 1) ∧
      Louvain.evaluateGraph attempts n fuel
        = some (Louvain.buildResult final, k + 1) := by
  have h1' : ∀ j, j < k → (Louvain.winnerAt attempts (0 + j)).improved = true := by
    intro j hj
    rw [Nat.zero_add]
    exact h1 j hj
  have h2' : (Louvain.winnerAt attempts (0 + k)).improved = false := by
    rwa [Nat.zero_add]
  obtain ⟨final, hfin⟩ :=
    s2p_runLevels_stops attempts k fuel 0 (Louvain.initN2c n) h1' h2' hf
  rw [Nat.zero_add] at hfin
  exact ⟨final, hfin, by rw [Louvain.evaluateGraph, hfin]; rfl⟩

/-- Witness for C6's theorem: the zero-edge scenario on a one-node graph; the
single attempt reports no improvement at level 0 and the loop runs exactly one
level. -/
theorem level_loop_stops_at_first_no_improvement_witness :
    ∃ final, Louvain.runLevels Louvain.constAttempts 2 (Louvain.initN2c 1) 0
        = some (final, 0 + 1) ∧
      Louvain.evaluateGraph Louvain.constAttempts 1 2
        = some (Louvain.buildResult final, 0 + 1) :=
  level_loop_stops_at_first_no_improvement Louvain.constAttempts 1 2 0
    (by intro j hj; omega)
    (by decide)
    (by omega)

theorem s2p_getD_set_self {α : Type} (d : α) :
    ∀ (l : List α) (i : Nat) (x : α), i < l.length →
      (l.set i x).getD i d = x := by
  intro l
  induction l with
  | nil => intro i x h; simp at h
  | cons a as ih =>
    intro i x h
    cases i with
    | zero => rfl
    | succ j =>
      simp only [List.set_cons_succ, List.getD_cons_succ]
      exact ih j x (by simpa using h)

theorem s2p_getD_set_ne {α : Type} (d : α) :
    ∀ (l : List α) (i j : Nat) (x : α), i ≠ j →
      (l.set i x).getD j d = l.getD j d := by
  intro l
  induction l with
  | nil => intro i j x _; simp
  | cons a as ih =>
    intro i j x hij
    cases i with
    | zero =>
      cases j with
      | zero => exact absurd rfl hij
      | succ j' => rfl
    | succ i' =>
      cases j with
      | zero => rfl
      | succ j' =>
        simp only [List.set_cons_succ, List.getD_cons_succ]
        exact ih i' j' x (fun h => hij (by rw [h]))

theorem s2p_getD_replicate {α : Type} (d a : α) :
    ∀ (n c : Nat), c < n → (List.replicate n a).getD c d = a := by
  intro n
  induction n with
  | zero => intro c h; omega
  | succ m ih =>
    intro c h
    cases c with
    | zero => rfl
    | succ c' =>
      simp only [List.replicate_succ, List.getD_cons_succ]
      exact ih c' (by omega)

theorem s2p_markFold_length :
    ∀ (l acc : List Int),
      (l.foldl (fun acc v => acc.set v.toNat (acc.getD v.toNat 0 + 1)) acc).length
        = acc.length := by
  intro l
  induction l with
  | nil => intro acc; rfl
  | cons v rest ih =>
    intro acc
    rw [List.foldl_cons, ih, List.length_set]

theorem s2p_markCounts_length (n2c : List Int) :
    (Louvain.markCounts n2c).length = n2c.length := by
  unfold Louvain.markCounts
  rw [s2p_markFold_length, List.length_replicate]

theorem s2p_markFold_getD :
    ∀ (l acc : List Int) (c : Nat), c < acc.length →
      (∀ v ∈ l, 0 ≤ v ∧ v < (acc.length : Int)) →
      (l.foldl (fun acc v => acc.set v.toNat (acc.getD v.toNat 0 + 1)) acc).getD c 0
        = acc.getD c 0 + (l.count (c : Int) : Int) := by
  intro l
  induction l with
  | nil => intro acc c hc _; simp
  | cons v rest ih =>
    intro acc c hc hval
    have hv := hval v (List.mem_cons_self _ _)
    have hlen : (acc.set v.toNat (acc.getD v.toNat 0 + 1)).length = acc.length :=
      List.length_set _ _ _
    have hval' : ∀ w ∈ rest, 0 ≤ w ∧ w < ((acc.set v.toNat (acc.getD v.toNat 0 + 1)).length : Int) := by
      intro w hw
      rw [hlen]
      exact hval w (List.mem_cons_of_mem _ hw)
    rw [List.foldl_cons, ih _ c (by rw [hlen]; exact hc) hval']
    by_cases h : v.toNat = c
    · have hvc : v = (c : Int) := by omega
      rw [h]
      rw [s2p_getD_set_self 0 acc c _ hc]
      have : (v :: rest).count (c : Int) = rest.count (c : Int) + 1 := by
        rw [List.count_cons]
        simp [hvc]
      rw [this]
      push_cast
      ring
    · rw [s2p_getD_set_ne 0 acc v.toNat c _ h]
      have hvc : ¬ v = (c : Int) := by omega
      have : (v :: rest).count (c : Int) = rest.count (c : Int) := by
        rw [List.count_cons]
        simp [hvc]
      rw [this]

theorem s2p_markCounts_getD (n2c : List Int) (c : Nat) (hc : c < n2c.length)
    (hval : ∀ v ∈ n2c, 0 ≤ v ∧ v < (n2c.length : Int)) :
    (Louvain.markCounts n2c).getD c 0 = -1 + (n2c.count (c : Int) : Int) := by
  unfold Louvain.markCounts
  rw [s2p_markFold_getD n2c _ c (by rw [List.length_replicate]; exact hc)
    (by rw [List.length_replicate]; exact hval),
    s2p_getD_replicate 0 (-1) n2c.length c hc]

theorem s2p_marked_iff_mem (n2c : List Int) (c : Nat) (hc : c < n2c.length)
    (hval : ∀ v ∈ n2c, 0 ≤ v ∧ v < (n2c.length : Int)) :
    ((Louvain.markCounts n2c).getD c 0 ≠ -1 ↔ (c : Int) ∈ n2c) := by
  rw [s2p_markCounts_getD n2c c hc hval]
  rw [← List.count_pos_iff]
  omega

theorem s2p_countMarked_nil : Louvain.countMarked [] = 0 := rfl

theorem s2p_countMarked_cons (m : Int) (ms : List Int) :
    Louvain.countMarked (m :: ms)
      = (if m ≠ -1 then 1 else 0) + Louvain.countMarked ms := by
  unfold Louvain.countMarked
  rw [List.filter_cons]
  by_cases h : m ≠ -1
  · simp [h]
    omega
  · simp [h]

theorem s2p_assignDense_length :
    ∀ (ms : List Int) (f : Int), (Louvain.assignDense ms f).length = ms.length := by
  intro ms
  induction ms with
  | nil => intro f; rfl
  | cons m rest ih =>
    intro f
    unfold Louvain.assignDense
    by_cases h : m ≠ -1
    · rw [if_pos h]
      simp only [List.length_cons, ih]
    · rw [if_neg h]
      simp only [List.length_cons, ih]

theorem s2p_assignDense_getD :
    ∀ (ms : List Int) (f : Int) (c : Nat), c < ms.length →
      (Louvain.assignDense ms f).getD c 0
        = if ms.getD c 0 ≠ -1 then f + (Louvain.countMarked (ms.take c) : Int)
          else -1 := by
  intro ms
  induction ms with
  | nil => intro f c h; simp at h
  | cons m rest ih =>
    intro f c hc
    unfold Louvain.assignDense
    cases c with
    | zero =>
      by_cases h : m ≠ -1
      · rw [if_pos h]
        simp [h, s2p_countMarked_nil]
      · rw [if_neg h]
        have hm : m = -1 := not_not.mp (by simpa using h)
        simp [h, hm]
    | succ c' =>
      have hc' : c' < rest.length := by simpa using hc
      by_cases h : m ≠ -1
      · rw [if_pos h]
        simp only [List.getD_cons_succ, List.take_succ_cons, s2p_countMarked_cons,
          if_pos h]
        rw [ih (f + 1) c' hc']
        by_cases h2 : rest.getD c' 0 ≠ -1
        · rw [if_pos h2, if_pos h2]
          push_cast
          ring
        · rw [if_neg h2, if_neg h2]
      · rw [if_neg h]
        simp only [List.getD_cons_succ, List.take_succ_cons, s2p_countMarked_cons,
          if_neg h]
        rw [ih f c' hc']
        by_cases h2 : rest.getD c' 0 ≠ -1
        · rw [if_pos h2, if_pos h2]
          push_cast
          ring
        · rw [if_neg h2, if_neg h2]

theorem s2p_countMarked_take_mono :
    ∀ (ms : List Int) (a b : Nat), a ≤ b →
      Louvain.countMarked (ms.take a) ≤ Louvain.countMarked (ms.take b) := by
  intro ms
  induction ms with
  | nil => intro a b _; simp
  | cons m rest ih =>
    intro a b hab
    cases a with
    | zero => simp [s2p_countMarked_nil]
    | succ a' =>
      cases b with
      | zero => omega
      | succ b' =>
        simp only [List.take_succ_cons, s2p_countMarked_cons]
        have := ih a' b' (by omega)
        omega

theorem s2p_countMarked_take_succ :
    ∀ (ms : List Int) (c : Nat), c < ms.length → ms.getD c 0 ≠ -1 →
      Louvain.countMarked (ms.take (c + 1))
        = Louvain.countMarked (ms.take c) + 1 := by
  intro ms
  induction ms with
  | nil => intro c h _; simp at h
  | cons m rest ih =>
    intro c hc hm
    cases c with
    | zero =>
      simp only [List.take_succ_cons, List.take_zero, s2p_countMarked_cons,
        s2p_countMarked_nil]
      have hm0 : m ≠ -1 := by simpa using hm
      simp [hm0]
    | succ c' =>
      simp only [List.take_succ_cons, s2p_countMarked_cons]
      have hc' : c' < rest.length := by simpa using hc
      have hm' : rest.getD c' 0 ≠ -1 := by simpa using hm
      rw [ih c' hc' hm']
      omega

theorem s2p_countMarked_take_lt :
    ∀ (ms : List Int) (c : Nat), c < ms.length → ms.getD c 0 ≠ -1 →
      Louvain.countMarked (ms.take c) < Louvain.countMarked ms := by
  intro ms c hc hm
  have h1 := s2p_countMarked_take_succ ms c hc hm
  have h2 : Louvain.countMarked (ms.take (c + 1)) ≤ Louvain.countMarked (ms.take ms.length) := by
    exact s2p_countMarked_take_mono ms (c + 1) ms.length (by omega)
  rw [List.take_length] at h2
  omega

theorem s2p_countMarked_surj :
    ∀ (ms : List Int) (k : Nat), k < Louvain.countMarked ms →
      ∃ c, c < ms.length ∧ ms.getD c 0 ≠ -1 ∧
        Louvain.countMarked (ms.take c) = k := by
  intro ms
  induction ms with
  | nil => intro k h; rw [s2p_countMarked_nil] at h; omega
  | cons m rest ih =>
    intro k hk
    rw [s2p_countMarked_cons] at hk
    by_cases hm : m ≠ -1
    · rw [if_pos hm] at hk
      cases k with
      | zero =>
        exact ⟨0, by simp, by simpa using hm, by simp [s2p_countMarked_nil]⟩
      | succ k' =>
        obtain ⟨c, hc, hcm, hck⟩ := ih k' (by omega)
        refine ⟨c + 1, by simpa using hc, by simpa using hcm, ?_⟩
        simp only [List.take_succ_cons, s2p_countMarked_cons, if_pos hm]
        omega
    · rw [if_neg hm] at hk
      obtain ⟨c, hc, hcm, hck⟩ := ih k (by omega)
      refine ⟨c + 1, by simpa using hc, by simpa using hcm, ?_⟩
      simp only [List.take_succ_cons, s2p_countMarked_cons, if_neg hm]
      omega

theorem s2p_foldl_max_le :
    ∀ (l : List Int) (a b : Int), a ≤ b → (∀ v ∈ l, v ≤ b) →
      l.foldl (fun m c => if m < c then c else m) a ≤ b := by
  intro l
  induction l with
  | nil => intro a b hab _; exact hab
  | cons v rest ih =>
    intro a b hab hv
    rw [List.foldl_cons]
    refine ih _ b ?_ (fun w hw => hv w (List.mem_cons_of_mem _ hw))
    by_cases h : a < v
    · rw [if_pos h]; exact hv v (List.mem_cons_self _ _)
    · rw [if_neg h]; exact hab

theorem s2p_renumber_entry (n2c : List Int) (c : Nat)
    (hval : ∀ v ∈ n2c, 0 ≤ v ∧ v < (n2c.length : Int))
    (hc : c < n2c.length) (hmem : (c : Int) ∈ n2c) :
    (Louvain.assignDense (Louvain.markCounts n2c) 0).getD c 0
      = (Louvain.countMarked ((Louvain.markCounts n2c).take c) : Int) := by
  have hc' : c < (Louvain.markCounts n2c).length := by
    rw [s2p_markCounts_length]; exact hc
  rw [s2p_assignDense_getD (Louvain.markCounts n2c) 0 c hc',
    if_pos ((s2p_marked_iff_mem n2c c hc hval).mpr hmem), zero_add]

theorem s2p_renumber_mono (n2c : List Int)
    (hval : ∀ v ∈ n2c, 0 ≤ v ∧ v < (n2c.length : Int)) (c1 c2 : Nat)
    (h12 : c1 < c2) (hc2 : c2 < n2c.length)
    (hm1 : (c1 : Int) ∈ n2c) (hm2 : (c2 : Int) ∈ n2c) :
    (Louvain.assignDense (Louvain.markCounts n2c) 0).getD c1 0
      < (Louvain.assignDense (Louvain.markCounts n2c) 0).getD c2 0 := by
  have hc1 : c1 < n2c.length := lt_trans h12 hc2
  rw [s2p_renumber_entry n2c c1 hval hc1 hm1,
    s2p_renumber_entry n2c c2 hval hc2 hm2]
  have hc1' : c1 < (Louvain.markCounts n2c).length := by
    rw [s2p_markCounts_length]; exact hc1
  have hmk1 : (Louvain.markCounts n2c).getD c1 0 ≠ -1 :=
    (s2p_marked_iff_mem n2c c1 hc1 hval).mpr hm1
  have hsucc := s2p_countMarked_take_succ (Louvain.markCounts n2c) c1 hc1' hmk1
  have hmono := s2p_countMarked_take_mono (Louvain.markCounts n2c) (c1 + 1) c2 h12
  omega

theorem s2p_renumber_step (comms n2c : List Int)
    (hval : ∀ v ∈ n2c, 0 ≤ v ∧ v < (n2c.length : Int))
    (hc : Louvain.denseOnto comms n2c.length) :
    Louvain.denseOnto (Louvain.renumber_communities comms n2c)
        (Louvain.countMarked (Louvain.markCounts n2c)) ∧
    (Louvain.renumber_communities comms n2c).length = comms.length := by
  have hmlen : (Louvain.markCounts n2c).length = n2c.length :=
    s2p_markCounts_length n2c
  constructor
  · constructor
    · -- every resulting value lies in [0, K)
      intro x hx
      unfold Louvain.renumber_communities at hx
      obtain ⟨old, hold, rfl⟩ := List.mem_map.mp hx
      obtain ⟨h0, hlt⟩ := hc.1 old hold
      have holdN : old.toNat < n2c.length := by omega
      have hmemC : n2c.getD old.toNat 0 ∈ n2c := by
        rw [List.getD_eq_getElem _ _ holdN]
        exact List.getElem_mem holdN
      obtain ⟨hc0, hclt⟩ := hval _ hmemC
      have hcN : (n2c.getD old.toNat 0).toNat < n2c.length := by omega
      have hcast : (((n2c.getD old.toNat 0).toNat : Nat) : Int) = n2c.getD old.toNat 0 :=
        Int.toNat_of_nonneg hc0
      have hmemN : (((n2c.getD old.toNat 0).toNat : Nat) : Int) ∈ n2c := by
        rw [hcast]; exact hmemC
      rw [s2p_renumber_entry n2c _ hval hcN hmemN]
      constructor
      · exact Int.ofNat_nonneg _
      · have hmk : (Louvain.markCounts n2c).getD (n2c.getD old.toNat 0).toNat 0 ≠ -1 :=
          (s2p_marked_iff_mem n2c _ hcN hval).mpr hmemN
        have := s2p_countMarked_take_lt (Louvain.markCounts n2c)
          (n2c.getD old.toNat 0).toNat (by rw [hmlen]; exact hcN) hmk
        omega
    · -- every id below K is attained
      intro k hk
      obtain ⟨c, hcl, hcm, hck⟩ := s2p_countMarked_surj (Louvain.markCounts n2c) k hk
      have hcn : c < n2c.length := by rw [← hmlen]; exact hcl
      have hmemN : (c : Int) ∈ n2c := (s2p_marked_iff_mem n2c c hcn hval).mp hcm
      obtain ⟨idx, hidx, hidxeq⟩ := List.getElem_of_mem hmemN
      have hidxMem : ((idx : Nat) : Int) ∈ comms := hc.2 idx hidx
      unfold Louvain.renumber_communities
      refine List.mem_map.mpr ⟨(idx : Int), hidxMem, ?_⟩
      have h1 : ((idx : Int)).toNat = idx := Int.toNat_natCast idx
      rw [h1]
      have h2 : n2c.getD idx 0 = (c : Int) := by
        rw [List.getD_eq_getElem _ _ hidx, hidxeq]
      rw [h2, Int.toNat_natCast]
      rw [s2p_renumber_entry n2c c hval hcn hmemN, hck]
  · exact List.length_map _ _

theorem s2p_initN2c_dense (n : Nat) : Louvain.denseOnto (Louvain.initN2c n) n := by
  constructor
  · intro v hv
    unfold Louvain.initN2c at hv
    obtain ⟨i, hi, rfl⟩ := List.mem_map.mp hv
    rw [List.mem_range] at hi
    exact ⟨Int.ofNat_nonneg i, by exact_mod_cast hi⟩
  · intro k hk
    unfold Louvain.initN2c
    exact List.mem_map.mpr ⟨k, List.mem_range.mpr hk, rfl⟩

theorem s2p_initN2c_length (n : Nat) : (Louvain.initN2c n).length = n := by
  unfold Louvain.initN2c
  rw [List.length_map, List.length_range]

theorem s2p_runLevels_dense (attempts : Nat → List Louvain.ClusterAttempt) (n : Nat)
    (H2 : ∀ l, (Louvain.winnerAt attempts l).n2c.length = Louvain.sizeAt attempts n l)
    (H3 : ∀ l, ∀ v ∈ (Louvain.winnerAt attempts l).n2c,
      0 ≤ v ∧ v < (Louvain.sizeAt attempts n l : Int)) :
    ∀ (fuel level : Nat) (comms final : List Int) (lv : Nat),
      Louvain.denseOnto comms (Louvain.sizeAt attempts n level) →
      Louvain.runLevels attempts fuel comms level = some (final, lv) →
      (∃ K, Louvain.denseOnto final K) ∧ final.length = comms.length := by
  intro fuel
  induction fuel with
  | zero =>
    intro level comms final lv _ hrun
    simp [Louvain.runLevels] at hrun
  | succ f ih =>
    intro level comms final lv hdense hrun
    have hval : ∀ v ∈ (Louvain.winnerAt attempts level).n2c,
        0 ≤ v ∧ v < ((Louvain.winnerAt attempts level).n2c.length : Int) := by
      intro v hv
      rw [H2 level]
      exact H3 level v hv
    have hdense' : Louvain.denseOnto comms (Louvain.winnerAt attempts level).n2c.length := by
      rw [H2 level]
      exact hdense
    obtain ⟨hstep, hsteplen⟩ := s2p_renumber_step comms
      (Louvain.winnerAt attempts level).n2c hval hdense'
    have hsize : Louvain.countMarked
        (Louvain.markCounts (Louvain.winnerAt attempts level).n2c)
        = Louvain.sizeAt attempts n (level + 1) := rfl
    simp only [Louvain.runLevels] at hrun
    by_cases himp : (Louvain.winnerAt attempts level).improved = true
    · rw [himp] at hrun
      simp only [if_true] at hrun
      have := ih (level + 1)
        (Louvain.renumber_communities comms (Louvain.winnerAt attempts level).n2c)
        final lv (by rw [← hsize]; exact hstep) hrun
      exact ⟨this.1, by rw [this.2, hsteplen]⟩
    · rw [Bool.not_eq_true] at himp
      rw [himp] at hrun
      simp only [Bool.false_eq_true, if_false, Option.some.injEq, Prod.mk.injEq] at hrun
      obtain ⟨hfin, _⟩ := hrun
      subst hfin
      exact ⟨⟨_, hstep⟩, hsteplen⟩

/-- C4: under the spec's ClusterPass/aggregation contract (each level's winner
assigns to the current graph's nodes community ids within range, and the
aggregated graph has one node per surviving community), the mapping returned
by the level loop uses exactly the dense zero-based ids `{0, ..., k-1}`, every
community object `build_result` materializes from it is nonempty, and each
renumbering step is order-preserving on surviving communities (a smaller
surviving old id receives a smaller new id). -/
theorem final_partition_ids_dense (attempts : Nat → List Louvain.ClusterAttempt)
    (n fuel : Nat) (final : List Int) (lv : Nat)
    (H2 : ∀ l, (Louvain.winnerAt attempts l).n2c.length = Louvain.sizeAt attempts n l)
    (H3 : ∀ l, ∀ v ∈ (Louvain.winnerAt attempts l).n2c,
      0 ≤ v ∧ v < (Louvain.sizeAt attempts n l : Int))
    (hn : 1 ≤ n)
    (hrun : Louvain.runLevels attempts fuel (Louvain.initN2c n) 0 = some (final, lv)) :
    (∀ c : Int, c ∈ final ↔
      (0 ≤ c ∧ c < ((Louvain.buildResult final).length : Int))) ∧
    (∀ j, j < (Louvain.buildResult final).length →
      (Louvain.buildResult final).getD j [] ≠ []) ∧
    (∀ (n2c : List Int) (c1 c2 : Nat),
      (∀ v ∈ n2c, 0 ≤ v ∧ v < (n2c.length : Int)) →
      c1 < c2 → c2 < n2c.length → (c1 : Int) ∈ n2c → (c2 : Int) ∈ n2c →
      (Louvain.assignDense (Louvain.markCounts n2c) 0).getD c1 0
        < (Louvain.assignDense (Louvain.markCounts n2c) 0).getD c2 0) := by
  have hinit : Louvain.denseOnto (Louvain.initN2c n) (Louvain.sizeAt attempts n 0) :=
    s2p_initN2c_dense n
  obtain ⟨⟨K, hdense⟩, hlen⟩ :=
    s2p_runLevels_dense attempts n H2 H3 fuel 0 (Louvain.initN2c n) final lv hinit hrun
  rw [s2p_initN2c_length] at hlen
  have hfinne : final ≠ [] := by
    intro h
    rw [h] at hlen
    simp at hlen
    omega
  have hKpos : 1 ≤ K := by
    obtain ⟨w, hw⟩ := List.exists_mem_of_ne_nil final hfinne
    have := hdense.1 w hw
    omega
  have hmax : Louvain.maxFold final = (K : Int) - 1 := by
    refine le_antisymm ?_ ?_
    · refine s2p_foldl_max_le final 0 ((K : Int) - 1) (by omega) ?_
      intro v hv
      have := (hdense.1 v hv).2
      omega
    · have hmem : ((K - 1 : Nat) : Int) ∈ final := hdense.2 (K - 1) (by omega)
      have hge := s2p_foldl_max_ge_mem final 0 _ hmem
      have hcast : ((K - 1 : Nat) : Int) = (K : Int) - 1 := by omega
      rw [hcast] at hge
      exact hge
  have hblen : (Louvain.buildResult final).length = K := by
    rw [s2p_buildResult_length, hmax]
    omega
  refine ⟨?_, ?_, ?_⟩
  · intro c
    constructor
    · intro hcmem
      have := hdense.1 c hcmem
      rw [hblen]
      omega
    · rintro ⟨h0, hlt⟩
      rw [hblen] at hlt
      have hcN : c.toNat < K := by omega
      have := hdense.2 c.toNat hcN
      rwa [Int.toNat_of_nonneg h0] at this
  · intro j hj
    have hjK : j < K := by rw [← hblen]; exact hj
    have hjmem : ((j : Nat) : Int) ∈ final := hdense.2 j hjK
    obtain ⟨idx, hidx, hidxeq⟩ := List.getElem_of_mem hjmem
    have hjm : j < (Louvain.maxFold final).toNat + 1 := by
      rw [← s2p_buildResult_length]; exact hj
    have hmem2 : idx ∈ (Louvain.buildResult final).getD j [] := by
      rw [s2p_buildResult_mem final idx j hidx hjm]
      rw [List.getD_eq_getElem _ _ hidx, hidxeq]
    exact List.ne_nil_of_mem hmem2
  · intro n2c c1 c2 hval h12 hc2 hm1 hm2
    exact s2p_renumber_mono n2c hval c1 c2 h12 hc2 hm1 hm2

/-- Witness for C4's theorem: a one-node graph whose single attempt converges
immediately; the final mapping is `[0]` and the single result community is
nonempty. -/
theorem final_partition_ids_dense_witness :
    (∀ c : Int, c ∈ ([0] : List Int) ↔
      (0 ≤ c ∧ c < ((Louvain.buildResult [0]).length : Int))) ∧
    (∀ j, j < (Louvain.buildResult [0]).length →
      (Louvain.buildResult [0]).getD j [] ≠ []) ∧
    (∀ (n2c : List Int) (c1 c2 : Nat),
      (∀ v ∈ n2c, 0 ≤ v ∧ v < (n2c.length : Int)) →
      c1 < c2 → c2 < n2c.length → (c1 : Int) ∈ n2c → (c2 : Int) ∈ n2c →
      (Louvain.assignDense (Louvain.markCounts n2c) 0).getD c1 0
        < (Louvain.assignDense (Louvain.markCounts n2c) 0).getD c2 0) := by
  have hw : ∀ l, Louvain.winnerAt Louvain.constAttempts l
      = ⟨false, 0, [0]⟩ := fun _ => rfl
  have hs : ∀ l, Louvain.sizeAt Louvain.constAttempts 1 l = 1 := by
    intro l
    cases l with
    | zero => rfl
    | succ l' =>
      show Louvain.countMarked
        (Louvain.markCounts (Louvain.winnerAt Louvain.constAttempts l').n2c) = 1
      rw [hw l']
      decide
  refine final_partition_ids_dense Louvain.constAttempts 1 1 [0] 1 ?_ ?_
    (by omega) (by decide)
  · intro l
    rw [hw l, hs l]
    rfl
  · intro l v hv
    rw [hw l] at hv
    rw [hs l]
    simp at hv
    subst hv
    constructor <;> decide
